import Mathlib

/-!
Shallow embedding of the glyphx terminal-UI toolkit.

The definitions below transcribe the TypeScript sources:
* `src/src/index.ts` — `ScrollState`, `FocusManager`, `Input`, `Textarea`,
  `Container._scrollToFocused`;
* `src/unnamed/part_000` — `BrailleCanvas` (`setPixel`, `getCell`) and
  `BarChart._render`.

TypeScript numbers are modelled as `Int` (or `ℚ` where fractional arithmetic
occurs), strings as `String` or `List Char`, arrays as `List`, and `null` /
`undefined` as `Option`.  Array element assignment at an in-bounds index is
`List.set`, `splice(i, 0, x)` is `List.insertIdx i x`, and `splice(i, 1)` is
`List.eraseIdx i`.  The JavaScript `%` operator (sign of the dividend) is
`Int.tmod`.
-/

/-- A readline key event: an optional key name, an optional literal character
sequence, and modifier flags. -/
structure Key where
  name : Option String := none
  sequence : Option (List Char) := none
  ctrl : Bool := false
  meta : Bool := false
  shift : Bool := false

/-! ### ScrollState (`src/src/index.ts` lines 215–252) -/

/-- The 2-D scroll offset owned by `Input`, `Textarea` and `Container`. -/
structure ScrollState where
  x : Int := 0
  y : Int := 0

def ScrollState.setX (s : ScrollState) (value max : Int) : ScrollState :=
  { s with x := Max.max 0 (Min.min value max) }

def ScrollState.setY (s : ScrollState) (value max : Int) : ScrollState :=
  { s with y := Max.max 0 (Min.min value max) }

/-- `clampHorizontal(cursor, viewportWidth)`: pull `x` back to `cursor` when the
cursor is left of the viewport, push it to `cursor - viewportWidth + 1` when the
cursor is right of it, then floor at `0`. -/
def ScrollState.clampHorizontal (s : ScrollState) (cursor viewportWidth : Int) :
    ScrollState :=
  let x1 := if cursor < s.x then cursor else s.x
  let x2 := if cursor ≥ x1 + viewportWidth then cursor - viewportWidth + 1 else x1
  { s with x := Max.max 0 x2 }

/-- `clampVertical(cursor, viewportHeight, maxScroll)`: same shape as
`clampHorizontal`, additionally capped at `maxScroll`. -/
def ScrollState.clampVertical (s : ScrollState)
    (cursor viewportHeight maxScroll : Int) : ScrollState :=
  let y1 := if cursor < s.y then cursor else s.y
  let y2 := if cursor ≥ y1 + viewportHeight then cursor - viewportHeight + 1 else y1
  { s with y := Max.max 0 (Min.min y2 maxScroll) }

/-! ### FocusManager (`src/src/index.ts` lines 170–211)

Only the index bookkeeping is modelled: `focus()` / `blur()` calls on the
children mutate the children, not the manager, and the claims under scrutiny
are about the index.  The manager owns a fixed list of `len` focusables and the
index starts at `-1`. -/

def FocusManager.focusAt (len : Nat) (i : Int) : Int :=
  Max.max 0 (Min.min i ((len : Int) - 1))

/-- `cycle(+1|-1)`: no-op when there are no focusables, otherwise advance the
index modulo `len`.  `fwd = true` is direction `+1`, `fwd = false` is `-1`,
mirroring the TypeScript type `1 | -1`. -/
def FocusManager.cycle (len : Nat) (idx : Int) (fwd : Bool) : Int :=
  if len = 0 then idx
  else Int.tmod (idx + (if fwd then 1 else -1) + (len : Int)) (len : Int)

def FocusManager.clear : Int := -1

def FocusManager.initFirst (len : Nat) (idx : Int) : Int :=
  if 0 < len ∧ idx < 0 then FocusManager.focusAt len 0 else idx

/-- One public operation of the `FocusManager` API. -/
inductive FMOp where
  | focusAt (i : Int)
  | cycle (fwd : Bool)
  | clear
  | initFirst

def FMOp.apply (len : Nat) (idx : Int) : FMOp → Int
  | .focusAt i => FocusManager.focusAt len i
  | .cycle fwd => FocusManager.cycle len idx fwd
  | .clear => FocusManager.clear
  | .initFirst => FocusManager.initFirst len idx

/-- Run a sequence of operations on a freshly constructed manager
(index `-1`). -/
def FocusManager.run (len : Nat) (ops : List FMOp) : Int :=
  ops.foldl (fun idx op => op.apply len idx) (-1)

/-! ### Theorems: C3, C4, C5 -/

/-- Helper: `cycle` keeps the index in `[-1, len - 1]` whenever it starts
there. -/
theorem FocusManager.cycle_mem {len : Nat} {idx : Int} (fwd : Bool)
    (h1 : -1 ≤ idx) (h2 : idx ≤ (len : Int) - 1) :
    -1 ≤ FocusManager.cycle len idx fwd ∧
      FocusManager.cycle len idx fwd ≤ (len : Int) - 1 := by
  unfold FocusManager.cycle
  by_cases h0 : len = 0
  · simp [h0]; omega
  · have hlen : (1 : Int) ≤ (len : Int) := by
      have : 1 ≤ len := Nat.one_le_iff_ne_zero.mpr h0
      exact_mod_cast this
    simp only [h0, if_neg, ite_false]
    set d : Int := if fwd then 1 else -1 with hd
    have hdrange : d = 1 ∨ d = -1 := by
      by_cases hf : fwd <;> simp [hd, hf]
    have hdvd : -1 ≤ idx + d + (len : Int) := by omega
    rcases Int.lt_or_le (idx + d + (len : Int)) 0 with hneg | hpos
    · have he : idx + d + (len : Int) = -1 := by omega
      have hl1 : (len : Int) = 1 := by omega
      rw [he, hl1]
      simp
    · rw [Int.tmod_eq_emod hpos (by omega)]
      have hm1 := Int.emod_nonneg (idx + d + (len : Int)) (b := (len : Int)) (by omega)
      have hm2 := Int.emod_lt_of_pos (idx + d + (len : Int)) (b := (len : Int)) (by omega)
      omega

/-- Helper: every single operation preserves membership of the index in
`[-1, len - 1]`, provided the manager has at least one focusable. -/
theorem FMOp.apply_mem {len : Nat} (hlen : 1 ≤ len) {idx : Int} (op : FMOp)
    (h1 : -1 ≤ idx) (h2 : idx ≤ (len : Int) - 1) :
    -1 ≤ op.apply len idx ∧ op.apply len idx ≤ (len : Int) - 1 := by
  have hlen' : (1 : Int) ≤ (len : Int) := by exact_mod_cast hlen
  cases op with
  | focusAt i =>
      simp only [FMOp.apply, FocusManager.focusAt]
      constructor
      · have := le_max_left (0 : Int) (Min.min i ((len : Int) - 1)); omega
      · have h := min_le_right i ((len : Int) - 1)
        have := max_le (by omega : (0 : Int) ≤ (len : Int) - 1) h
        omega
  | cycle fwd => exact FocusManager.cycle_mem fwd h1 h2
  | clear => simp only [FMOp.apply, FocusManager.clear]; omega
  | initFirst =>
      simp only [FMOp.apply, FocusManager.initFirst]
      split
      · simp only [FocusManager.focusAt]
        constructor
        · have := le_max_left (0 : Int) (Min.min 0 ((len : Int) - 1)); omega
        · have h := min_le_right (0 : Int) ((len : Int) - 1)
          have := max_le (by omega : (0 : Int) ≤ (len : Int) - 1) h
          omega
      · exact ⟨h1, h2⟩

/-- **C4 (counterexample).**  With `N = 0` focusable children, `focusAt 5`
drives the index to `0`, which lies outside `[-1, N-1] = [-1, -1]`: the claimed
invariant fails for the empty-children manager. -/
theorem focusManager_empty_focusAt_escapes_range :
    FocusManager.run 0 [FMOp.focusAt 5] = 0 ∧
      ¬ FocusManager.run 0 [FMOp.focusAt 5] ≤ (0 : Int) - 1 := by
  constructor <;> decide

/-- **C4 (amended).**  For a `FocusManager` over `N ≥ 1` focusable children and
every sequence of operations, the index stays in `[-1, N-1]`; moreover
`focusAt i` clamps any requested `i` into `[0, N-1]`. -/
theorem focusManager_index_in_range {len : Nat} (hlen : 1 ≤ len)
    (ops : List FMOp) :
    (-1 ≤ FocusManager.run len ops ∧
        FocusManager.run len ops ≤ (len : Int) - 1) ∧
      ∀ i : Int, 0 ≤ FocusManager.focusAt len i ∧
        FocusManager.focusAt len i ≤ (len : Int) - 1 := by
  have hlen' : (1 : Int) ≤ (len : Int) := by exact_mod_cast hlen
  constructor
  · suffices h : ∀ idx : Int, -1 ≤ idx → idx ≤ (len : Int) - 1 →
        -1 ≤ ops.foldl (fun idx op => op.apply len idx) idx ∧
          ops.foldl (fun idx op => op.apply len idx) idx ≤ (len : Int) - 1 by
      exact h (-1) (by omega) (by omega)
    induction ops with
    | nil => intro idx h1 h2; exact ⟨h1, h2⟩
    | cons op rest ih =>
        intro idx h1 h2
        have hop := FMOp.apply_mem hlen op h1 h2
        exact ih (op.apply len idx) hop.1 hop.2
  · intro i
    simp only [FocusManager.focusAt]
    constructor
    · exact le_max_left 0 _
    · have h := min_le_right i ((len : Int) - 1)
      have := max_le (by omega : (0 : Int) ≤ (len : Int) - 1) h
      omega

/-- Witness for `focusManager_index_in_range` at `len = 2`,
`ops = [focusAt 7, cycle +1]`. -/
theorem focusManager_index_in_range_witness :
    (1 ≤ 2) ∧
      ((-1 ≤ FocusManager.run 2 [FMOp.focusAt 7, FMOp.cycle true] ∧
          FocusManager.run 2 [FMOp.focusAt 7, FMOp.cycle true] ≤ (2 : Int) - 1) ∧
        ∀ i : Int, 0 ≤ FocusManager.focusAt 2 i ∧
          FocusManager.focusAt 2 i ≤ (2 : Int) - 1) :=
  ⟨by decide, focusManager_index_in_range (by decide) [FMOp.focusAt 7, FMOp.cycle true]⟩

/-- Iterated `cycle` in a fixed direction. -/
def FocusManager.cycleIter (len : Nat) (fwd : Bool) (idx : Int) : Nat → Int
  | 0 => idx
  | n + 1 => FocusManager.cycle len (FocusManager.cycleIter len fwd idx n) fwd

/-- **C5 (counterexample).**  Starting from the no-focus index `-1` over `N = 2`
children, cycling forward `N` times lands on `1`, not back on `-1`. -/
theorem focusManager_cycle_from_noFocus_not_id :
    FocusManager.cycleIter 2 true (-1) 2 = 1 ∧
      FocusManager.cycleIter 2 true (-1) 2 ≠ -1 := by
  constructor <;> decide

/-- Helper: from an in-range index, one `cycle` adds the direction modulo
`len` (Euclidean remainder). -/
theorem FocusManager.cycle_eq_emod {len : Nat} (hlen : 1 ≤ len) {idx : Int}
    (h1 : 0 ≤ idx) (h2 : idx ≤ (len : Int) - 1) (fwd : Bool) :
    FocusManager.cycle len idx fwd =
      (idx + (if fwd then 1 else -1)) % (len : Int) := by
  have hlen' : (1 : Int) ≤ (len : Int) := by exact_mod_cast hlen
  unfold FocusManager.cycle
  have h0 : ¬ len = 0 := by omega
  simp only [h0, ite_false]
  set d : Int := if fwd then 1 else -1 with hd
  have hdrange : d = 1 ∨ d = -1 := by
    by_cases hf : fwd <;> simp [hd, hf]
  rw [Int.tmod_eq_emod (by omega) (by omega)]
  have hsplit : idx + d + (len : Int) = idx + d + (len : Int) * 1 := by ring
  rw [hsplit, Int.add_mul_emod_self_left]

/-- Helper: after `k` cycles from an in-range start the index is
`(start + k·d) mod len`. -/
theorem FocusManager.cycleIter_eq {len : Nat} (hlen : 1 ≤ len) {idx : Int}
    (h1 : 0 ≤ idx) (h2 : idx ≤ (len : Int) - 1) (fwd : Bool) (k : Nat) :
    FocusManager.cycleIter len fwd idx k =
      (idx + (k : Int) * (if fwd then 1 else -1)) % (len : Int) := by
  have hlen' : (1 : Int) ≤ (len : Int) := by exact_mod_cast hlen
  induction k with
  | zero =>
      simp only [FocusManager.cycleIter, Nat.cast_zero, zero_mul, add_zero]
      rw [Int.emod_eq_of_lt h1 (by omega)]
  | succ n ih =>
      have hmem1 : 0 ≤ FocusManager.cycleIter len fwd idx n := by
        rw [ih]; exact Int.emod_nonneg _ (by omega)
      have hmem2 : FocusManager.cycleIter len fwd idx n ≤ (len : Int) - 1 := by
        rw [ih]
        have := Int.emod_lt_of_pos (idx + (n : Int) * (if fwd then 1 else -1))
          (b := (len : Int)) (by omega)
        omega
      show FocusManager.cycle len (FocusManager.cycleIter len fwd idx n) fwd = _
      rw [FocusManager.cycle_eq_emod hlen hmem1 hmem2 fwd, ih,
        Int.emod_add_emod]
      congr 1
      push_cast
      ring

/-- **C5 (amended).**  For a `FocusManager` over `N` focusable children whose
starting index actually points at a child (`0 ≤ idx ≤ N-1`), applying `cycle`
with a fixed direction `N` times returns the index to its original value. -/
theorem focusManager_cycle_n_times_id {len : Nat} {idx : Int}
    (h1 : 0 ≤ idx) (h2 : idx ≤ (len : Int) - 1) (fwd : Bool) :
    FocusManager.cycleIter len fwd idx len = idx := by
  have hlen : 1 ≤ len := by
    by_contra h
    have : len = 0 := by omega
    subst this
    simp at h2
    omega
  rw [FocusManager.cycleIter_eq hlen h1 h2 fwd len]
  have hlen' : (1 : Int) ≤ (len : Int) := by exact_mod_cast hlen
  rw [Int.add_mul_emod_self_left]
  exact Int.emod_eq_of_lt h1 (by omega)

/-- Witness for `focusManager_cycle_n_times_id` at `len = 3`, `idx = 1`,
forward direction. -/
theorem focusManager_cycle_n_times_id_witness :
    ((0 : Int) ≤ 1 ∧ (1 : Int) ≤ (3 : Int) - 1) ∧
      FocusManager.cycleIter 3 true 1 3 = 1 :=
  ⟨⟨by decide, by decide⟩, focusManager_cycle_n_times_id (by decide) (by decide) true⟩

/-- **C3 (counterexample).**  At state `x = 0`, the call
`clampHorizontal(cursor := 0, w := 0)` (as issued by an `Input` of width `2`)
leaves `x = 1`, violating `x ≤ cursor`. -/
theorem clampHorizontal_violates_bound_at_zero_width :
    (({ x := 0, y := 0 } : ScrollState).clampHorizontal 0 0).x = 1 ∧
      ¬ (0 ≤ (({ x := 0, y := 0 } : ScrollState).clampHorizontal 0 0).x ∧
          (({ x := 0, y := 0 } : ScrollState).clampHorizontal 0 0).x ≤ 0 ∧
          0 ≤ (({ x := 0, y := 0 } : ScrollState).clampHorizontal 0 0).x + 0 - 1) := by
  constructor <;> decide

/-- **C3 (amended).**  For every `ScrollState` and every call
`clampHorizontal(cursor, w)` with a non-negative cursor and a positive viewport
width, afterwards `x ≥ 0` and `x ≤ cursor ≤ x + w - 1`. -/
theorem clampHorizontal_brackets_cursor (s : ScrollState) (cursor w : Int)
    (hc : 0 ≤ cursor) (hw : 1 ≤ w) :
    0 ≤ (s.clampHorizontal cursor w).x ∧
      (s.clampHorizontal cursor w).x ≤ cursor ∧
      cursor ≤ (s.clampHorizontal cursor w).x + w - 1 := by
  unfold ScrollState.clampHorizontal
  dsimp only
  split <;> split <;>
    refine ⟨le_max_left _ _, ?_, ?_⟩ <;>
    rw [max_def] <;> split <;> omega

/-- Witness for `clampHorizontal_brackets_cursor` at `x = 3`, `cursor = 9`,
`w = 4`. -/
theorem clampHorizontal_brackets_cursor_witness :
    ((0 : Int) ≤ 9 ∧ (1 : Int) ≤ 4) ∧
      (0 ≤ (({ x := 3, y := 0 } : ScrollState).clampHorizontal 9 4).x ∧
        (({ x := 3, y := 0 } : ScrollState).clampHorizontal 9 4).x ≤ 9 ∧
        9 ≤ (({ x := 3, y := 0 } : ScrollState).clampHorizontal 9 4).x + 4 - 1) :=
  ⟨⟨by decide, by decide⟩,
    clampHorizontal_brackets_cursor { x := 3, y := 0 } 9 4 (by decide) (by decide)⟩

/-! ### Container auto-scroll-to-focused (`src/src/index.ts` lines 1407–1436)

`Container._scrollToFocused` walks the children accumulating `lineOffset` (the
prefix sum of preceding line counts); at the focused child it reads the child's
`activeLineHint` (default `0`) and adjusts the vertical scroll.  The function
below transcribes the body executed at the focused child: `offset` is the
accumulated `lineOffset` (= `topAnchor`), `ih` the viewport height
(`style.height - 3`), and `maxY` the value of `_maxScrollY()`. -/

def Container.scrollToFocusedY (scroll : ScrollState) (ih offset hint maxY : Int) :
    ScrollState :=
  let targetLine := offset + hint
  if targetLine < scroll.y then
    scroll.setY (Min.min targetLine offset) maxY
  else if targetLine ≥ scroll.y + ih then
    scroll.setY (Min.min (targetLine - ih + 1) offset) maxY
  else scroll

/-- **C2 (counterexample).**  With viewport height `5`, focused-child offset
`10`, hint `0`, and the target line previously out of view *above* the viewport
(`scrollY = 12 > 10`), the auto-scroll step sets `scrollY` to `10` (the child's
own top border), not to `6`. -/
theorem scrollToFocused_above_lands_on_anchor :
    (Container.scrollToFocusedY { x := 0, y := 12 } 5 10 0 20).y = 10 ∧
      (Container.scrollToFocusedY { x := 0, y := 12 } 5 10 0 20).y ≠ 6 := by
  constructor <;> decide

/-- **C2 (amended).**  With viewport height `5`, focused-child cumulative
offset `10`, hint `0`, and the target line previously out of view *below* the
viewport (`10 ≥ scrollY + 5`), the auto-scroll step sets `scrollY` to exactly
`6 = 10 - 5 + 1` (the panel's content reaches at least line 10, so
`maxScrollY ≥ 6`). -/
theorem scrollToFocused_below_sets_six (scroll : ScrollState) (maxY : Int)
    (hview : 10 ≥ scroll.y + 5) (hmax : 6 ≤ maxY) :
    (Container.scrollToFocusedY scroll 5 10 0 maxY).y = 6 := by
  unfold Container.scrollToFocusedY ScrollState.setY
  have h1 : ¬ (10 + 0 < scroll.y) := by omega
  simp only [h1, ite_false, if_neg]
  have h2 : 10 + 0 ≥ scroll.y + 5 := by omega
  simp only [h2, ite_true, if_pos]
  show Max.max 0 (Min.min (Min.min (10 + 0 - 5 + 1) 10) maxY) = 6
  omega

/-- Witness for `scrollToFocused_below_sets_six` at `scrollY = 0`,
`maxScrollY = 20`. -/
theorem scrollToFocused_below_sets_six_witness :
    ((10 : Int) ≥ 0 + 5 ∧ (6 : Int) ≤ 20) ∧
      (Container.scrollToFocusedY { x := 0, y := 0 } 5 10 0 20).y = 6 :=
  ⟨⟨by decide, by decide⟩,
    scrollToFocused_below_sets_six { x := 0, y := 0 } 20 (by decide) (by decide)⟩

/-! ### Textarea (`src/src/index.ts` lines 1023–1277)

Lines are `List Char` (TS strings), the line list is a `List (List Char)`.
`str.slice(0, c)` is `List.take c`, `str.slice(c)` is `List.drop c`,
`lines.splice(i, 0, x)` is `List.insertIdx i x`, `lines.splice(i, 1)` is
`List.eraseIdx i`, and `this._lines[r] ?? ""` is `List.getD r []`. -/

structure TextareaState where
  lines : List (List Char)
  cursorRow : Nat
  cursorCol : Nat
  scroll : ScrollState
  width : Int
  height : Int

/-- `initialValue.split("\n")`: split a character list at newline characters.
Always returns at least one (possibly empty) segment. -/
def splitNl : List Char → List (List Char)
  | [] => [[]]
  | c :: rest =>
      if c = '\n' then [] :: splitNl rest
      else
        match splitNl rest with
        | [] => [[c]]
        | l :: ls => (c :: l) :: ls

/-- The `Textarea` constructor: `initialValue.length > 0 ? split : [""]`,
cursor at the origin, fresh scroll state. -/
def Textarea.mk' (width height : Int) (initialValue : List Char) : TextareaState :=
  { lines := if initialValue.length > 0 then splitNl initialValue else [[]]
    cursorRow := 0
    cursorCol := 0
    scroll := {}
    width := width
    height := height }

def Textarea.currentLine (s : TextareaState) : List Char :=
  s.lines.getD s.cursorRow []

def Textarea.moveCursorLeft (s : TextareaState) : TextareaState :=
  if s.cursorCol > 0 then { s with cursorCol := s.cursorCol - 1 }
  else if s.cursorRow > 0 then
    { s with cursorRow := s.cursorRow - 1,
             cursorCol := (s.lines.getD (s.cursorRow - 1) []).length }
  else s

def Textarea.moveCursorRight (s : TextareaState) : TextareaState :=
  if s.cursorCol < (Textarea.currentLine s).length then
    { s with cursorCol := s.cursorCol + 1 }
  else if s.cursorRow < s.lines.length - 1 then
    { s with cursorRow := s.cursorRow + 1, cursorCol := 0 }
  else s

def Textarea.moveCursorUp (s : TextareaState) : TextareaState :=
  if s.cursorRow > 0 then
    { s with cursorRow := s.cursorRow - 1,
             cursorCol := Min.min s.cursorCol (s.lines.getD (s.cursorRow - 1) []).length }
  else s

def Textarea.moveCursorDown (s : TextareaState) : TextareaState :=
  if s.cursorRow < s.lines.length - 1 then
    { s with cursorRow := s.cursorRow + 1,
             cursorCol := Min.min s.cursorCol (s.lines.getD (s.cursorRow + 1) []).length }
  else s

def Textarea.insertChar (ch : Char) (s : TextareaState) : TextareaState :=
  { s with
    lines := s.lines.set s.cursorRow
      ((Textarea.currentLine s).take s.cursorCol ++ [ch] ++
        (Textarea.currentLine s).drop s.cursorCol)
    cursorCol := s.cursorCol + 1 }

def Textarea.insertNewline (s : TextareaState) : TextareaState :=
  { s with
    lines := (s.lines.set s.cursorRow
      ((Textarea.currentLine s).take s.cursorCol)).insertIdx
      (s.cursorRow + 1) ((Textarea.currentLine s).drop s.cursorCol)
    cursorRow := s.cursorRow + 1
    cursorCol := 0 }

def Textarea.deleteBackward (s : TextareaState) : TextareaState :=
  if s.cursorCol > 0 then
    { s with
      lines := s.lines.set s.cursorRow
        ((Textarea.currentLine s).take (s.cursorCol - 1) ++
          (Textarea.currentLine s).drop s.cursorCol)
      cursorCol := s.cursorCol - 1 }
  else if s.cursorRow > 0 then
    { s with
      cursorCol := (s.lines.getD (s.cursorRow - 1) []).length
      lines := (s.lines.set (s.cursorRow - 1)
        (s.lines.getD (s.cursorRow - 1) [] ++ Textarea.currentLine s)).eraseIdx
        s.cursorRow
      cursorRow := s.cursorRow - 1 }
  else s

def Textarea.deleteForward (s : TextareaState) : TextareaState :=
  if s.cursorCol < (Textarea.currentLine s).length then
    { s with
      lines := s.lines.set s.cursorRow
        ((Textarea.currentLine s).take s.cursorCol ++
          (Textarea.currentLine s).drop (s.cursorCol + 1)) }
  else if s.cursorRow < s.lines.length - 1 then
    { s with
      lines := (s.lines.set s.cursorRow
        (Textarea.currentLine s ++ s.lines.getD (s.cursorRow + 1) [])).eraseIdx
        (s.cursorRow + 1) }
  else s

/-- `_clampScroll`: `ih = height - 2`, `iw = width - 2`. -/
def Textarea.clampScroll (s : TextareaState) : TextareaState :=
  let ih : Int := s.height - 2
  let maxScrollY : Int := Max.max 0 ((s.lines.length : Int) - ih)
  let sc := (s.scroll.clampVertical (s.cursorRow : Int) ih maxScrollY).clampHorizontal
    (s.cursorCol : Int) (s.width - 2)
  { s with scroll := sc }

/-- The buffer/cursor mutation selected by the `if`/`else if` chain of
`Textarea.handleKey`; `none` is the final `return false` branch.
`Home` sets the column to `0` (and the row to `0` under `Ctrl`); `End` moves
the row to the last line under `Ctrl` and then sets the column to the (new)
current line's length. -/
def Textarea.keyStep (k : Key) (s : TextareaState) : Option TextareaState :=
  if k.name = some "left" then some (Textarea.moveCursorLeft s)
  else if k.name = some "right" then some (Textarea.moveCursorRight s)
  else if k.name = some "up" then some (Textarea.moveCursorUp s)
  else if k.name = some "down" then some (Textarea.moveCursorDown s)
  else if k.name = some "home" then
    some (if k.ctrl then { s with cursorRow := 0, cursorCol := 0 }
          else { s with cursorCol := 0 })
  else if k.name = some "end" then
    some (if k.ctrl then
            { s with cursorRow := s.lines.length - 1,
                     cursorCol := (s.lines.getD (s.lines.length - 1) []).length }
          else { s with cursorCol := (Textarea.currentLine s).length })
  else if k.name = some "backspace" then some (Textarea.deleteBackward s)
  else if k.name = some "delete" then some (Textarea.deleteForward s)
  else if k.name = some "return" then some (Textarea.insertNewline s)
  else
    match k.sequence with
    | some [c] => if ¬ k.ctrl ∧ ¬ k.meta then some (Textarea.insertChar c s) else none
    | _ => none

/-- `Textarea.handleKey`: `Tab`/`Escape` are refused; recognised keys mutate
the buffer/cursor and re-clamp the scroll; anything else is unconsumed. -/
def Textarea.handleKey (k : Key) (s : TextareaState) : TextareaState × Bool :=
  if k.name = some "tab" ∨ k.name = some "escape" then (s, false)
  else
    match Textarea.keyStep k s with
    | some s' => (Textarea.clampScroll s', true)
    | none => (s, false)

/-- Deliver a sequence of key events. -/
def Textarea.processKeys (ks : List Key) (s : TextareaState) : TextareaState :=
  ks.foldl (fun s k => (Textarea.handleKey k s).1) s

/-- The cursor/selection invariants of claim C1: the line list is non-empty,
the cursor row addresses an existing line, and the cursor column is at most
that line's length. -/
def Textarea.Inv (s : TextareaState) : Prop :=
  0 < s.lines.length ∧ s.cursorRow < s.lines.length ∧
    s.cursorCol ≤ (Textarea.currentLine s).length


theorem Textarea.inv_moveCursorLeft {s : TextareaState} (h : Textarea.Inv s) :
    Textarea.Inv (Textarea.moveCursorLeft s) := by
  obtain ⟨h1, h2, h3⟩ := h
  unfold Textarea.moveCursorLeft
  split
  · exact ⟨h1, h2, by
      simp only [Textarea.currentLine, List.getD_eq_getElem?_getD] at h3 ⊢
      omega⟩
  · split
    · exact ⟨h1, by simp; omega, by simp [Textarea.currentLine]⟩
    · exact ⟨h1, h2, h3⟩

theorem Textarea.inv_moveCursorRight {s : TextareaState} (h : Textarea.Inv s) :
    Textarea.Inv (Textarea.moveCursorRight s) := by
  obtain ⟨h1, h2, h3⟩ := h
  unfold Textarea.moveCursorRight
  split
  · rename_i hc
    exact ⟨h1, h2, by
      simp only [Textarea.currentLine, List.getD_eq_getElem?_getD] at hc h3 ⊢
      omega⟩
  · split
    · exact ⟨h1, by simp; omega, by simp [Textarea.currentLine]⟩
    · exact ⟨h1, h2, h3⟩

theorem Textarea.inv_moveCursorUp {s : TextareaState} (h : Textarea.Inv s) :
    Textarea.Inv (Textarea.moveCursorUp s) := by
  obtain ⟨h1, h2, h3⟩ := h
  unfold Textarea.moveCursorUp
  split
  · refine ⟨h1, by simp; omega, ?_⟩
    simp only [Textarea.currentLine]
    simp
  · exact ⟨h1, h2, h3⟩

theorem Textarea.inv_moveCursorDown {s : TextareaState} (h : Textarea.Inv s) :
    Textarea.Inv (Textarea.moveCursorDown s) := by
  obtain ⟨h1, h2, h3⟩ := h
  unfold Textarea.moveCursorDown
  split
  · refine ⟨h1, by simp; omega, ?_⟩
    simp only [Textarea.currentLine]
    simp
  · exact ⟨h1, h2, h3⟩

theorem Textarea.inv_insertChar {s : TextareaState} (ch : Char)
    (h : Textarea.Inv s) : Textarea.Inv (Textarea.insertChar ch s) := by
  obtain ⟨h1, h2, h3⟩ := h
  unfold Textarea.insertChar
  refine ⟨by simpa using h1, by simpa using h2, ?_⟩
  simp only [Textarea.currentLine, List.getD_eq_getElem?_getD] at h3 ⊢
  simp only [List.getElem?_set_self (by simpa using h2), Option.getD_some,
    List.length_append, List.length_take, List.length_drop, List.length_cons,
    List.length_nil]
  omega

theorem Textarea.inv_insertNewline {s : TextareaState} (h : Textarea.Inv s) :
    Textarea.Inv (Textarea.insertNewline s) := by
  obtain ⟨h1, h2, h3⟩ := h
  unfold Textarea.insertNewline
  have hle : s.cursorRow + 1 ≤ (s.lines.set s.cursorRow
      ((Textarea.currentLine s).take s.cursorCol)).length := by
    simp; omega
  refine ⟨?_, ?_, by simp⟩
  · simp only [List.length_insertIdx _ _ hle]
    omega
  · simp only [List.length_insertIdx _ _ hle]
    simp
    omega

theorem Textarea.inv_deleteBackward {s : TextareaState} (h : Textarea.Inv s) :
    Textarea.Inv (Textarea.deleteBackward s) := by
  obtain ⟨h1, h2, h3⟩ := h
  unfold Textarea.deleteBackward
  split
  · refine ⟨by simpa using h1, by simpa using h2, ?_⟩
    simp only [Textarea.currentLine, List.getD_eq_getElem?_getD] at h3 ⊢
    simp only [List.getElem?_set_self (by simpa using h2), Option.getD_some,
      List.length_append, List.length_take, List.length_drop]
    omega
  · rename_i hc0
    split
    · rename_i hrow
      simp only [Textarea.Inv, Textarea.currentLine, List.getD_eq_getElem?_getD]
      have hlen : ((s.lines.set (s.cursorRow - 1)
          (s.lines[s.cursorRow - 1]?.getD [] ++ s.lines[s.cursorRow]?.getD
            [])).eraseIdx s.cursorRow).length = s.lines.length - 1 := by
        rw [List.length_eraseIdx_of_lt (by simpa using h2)]
        simp
      refine ⟨?_, ?_, ?_⟩
      · rw [hlen]; omega
      · rw [hlen]; omega
      · rw [List.getElem?_eraseIdx_of_lt _ _ _ (by omega)]
        rw [List.getElem?_set_self (by omega)]
        simp
    · exact ⟨h1, h2, h3⟩

theorem Textarea.inv_deleteForward {s : TextareaState} (h : Textarea.Inv s) :
    Textarea.Inv (Textarea.deleteForward s) := by
  obtain ⟨h1, h2, h3⟩ := h
  unfold Textarea.deleteForward
  split
  · rename_i hc
    refine ⟨by simpa using h1, by simpa using h2, ?_⟩
    simp only [Textarea.currentLine, List.getD_eq_getElem?_getD] at hc h3 ⊢
    simp only [List.getElem?_set_self (by simpa using h2), Option.getD_some,
      List.length_append, List.length_take, List.length_drop]
    omega
  · rename_i hc
    split
    · rename_i hr
      simp only [Textarea.Inv, Textarea.currentLine, List.getD_eq_getElem?_getD]
      simp only [Textarea.currentLine, List.getD_eq_getElem?_getD] at h3
      have hlen : ((s.lines.set s.cursorRow
          (s.lines[s.cursorRow]?.getD [] ++ s.lines[s.cursorRow + 1]?.getD
            [])).eraseIdx (s.cursorRow + 1)).length = s.lines.length - 1 := by
        rw [List.length_eraseIdx_of_lt (by simp; omega)]
        simp
      refine ⟨?_, ?_, ?_⟩
      · rw [hlen]; omega
      · rw [hlen]; omega
      · rw [List.getElem?_eraseIdx_of_lt _ _ _ (by omega)]
        rw [List.getElem?_set_self (by simpa using h2)]
        simp only [Option.getD_some, List.length_append]
        omega
    · exact ⟨h1, h2, h3⟩

theorem Textarea.inv_clampScroll {s : TextareaState} (h : Textarea.Inv s) :
    Textarea.Inv (Textarea.clampScroll s) := by
  obtain ⟨h1, h2, h3⟩ := h
  exact ⟨h1, h2, h3⟩

/-- Helper: every mutation selected by the key dispatch chain preserves the
invariants. -/
theorem Textarea.inv_keyStep {s s' : TextareaState} (k : Key)
    (hstep : Textarea.keyStep k s = some s') (h : Textarea.Inv s) :
    Textarea.Inv s' := by
  obtain ⟨h1, h2, h3⟩ := h
  have hinv : Textarea.Inv s := ⟨h1, h2, h3⟩
  unfold Textarea.keyStep at hstep
  split at hstep
  · cases hstep; exact Textarea.inv_moveCursorLeft hinv
  · split at hstep
    · cases hstep; exact Textarea.inv_moveCursorRight hinv
    · split at hstep
      · cases hstep; exact Textarea.inv_moveCursorUp hinv
      · split at hstep
        · cases hstep; exact Textarea.inv_moveCursorDown hinv
        · split at hstep
          · cases hstep
            split
            · exact ⟨by simpa using h1, by simpa using h1, by simp [Textarea.currentLine]⟩
            · exact ⟨by simpa using h1, by simpa using h2, by simp [Textarea.currentLine]⟩
          · split at hstep
            · cases hstep
              split
              · exact ⟨by simpa using h1, by simp; omega,
                  by simp [Textarea.currentLine]⟩
              · exact ⟨by simpa using h1, by simpa using h2,
                  by simp [Textarea.currentLine]⟩
            · split at hstep
              · cases hstep; exact Textarea.inv_deleteBackward hinv
              · split at hstep
                · cases hstep; exact Textarea.inv_deleteForward hinv
                · split at hstep
                  · cases hstep; exact Textarea.inv_insertNewline hinv
                  · split at hstep
                    · split at hstep
                      · cases hstep; exact Textarea.inv_insertChar _ hinv
                      · cases hstep
                    · cases hstep

/-- Helper: a single `handleKey` call preserves the cursor/selection
invariants. -/
theorem Textarea.inv_handleKey {s : TextareaState} (k : Key)
    (h : Textarea.Inv s) : Textarea.Inv (Textarea.handleKey k s).1 := by
  unfold Textarea.handleKey
  split
  · exact h
  · split
    · rename_i s' hs'
      exact Textarea.inv_clampScroll (Textarea.inv_keyStep k hs' h)
    · exact h

/-- Helper: the constructor's `split("\n")` never returns an empty array. -/
theorem splitNl_ne_nil (v : List Char) : splitNl v ≠ [] := by
  cases v with
  | nil => simp [splitNl]
  | cons c rest =>
      unfold splitNl
      split
      · simp
      · split <;> simp

/-- Helper: a freshly constructed `Textarea` satisfies the invariants. -/
theorem Textarea.inv_mk (width height : Int) (v : List Char) :
    Textarea.Inv (Textarea.mk' width height v) := by
  unfold Textarea.mk' Textarea.Inv Textarea.currentLine
  split
  · have hne := splitNl_ne_nil v
    have hpos := List.length_pos.mpr hne
    exact ⟨by simpa using hpos, by simpa using hpos, by simp⟩
  · exact ⟨by simp, by simp, by simp⟩

/-- Helper: delivering any list of keys preserves the invariants. -/
theorem Textarea.inv_processKeys {s : TextareaState} (ks : List Key)
    (h : Textarea.Inv s) : Textarea.Inv (Textarea.processKeys ks s) := by
  induction ks generalizing s with
  | nil => exact h
  | cons k rest ih => exact ih (Textarea.inv_handleKey k h)

/-- **C1 (confirmed).**  For every Textarea geometry, initial value, and
sequence of key events delivered via `handleKey`, the cursor/selection
invariants hold afterwards: the line list is non-empty,
`cursorRow < lines.length`, and `cursorCol ≤ (lines[cursorRow]).length`. -/
theorem textarea_handleKey_preserves_invariants (width height : Int)
    (v : List Char) (ks : List Key) :
    Textarea.Inv (Textarea.processKeys ks (Textarea.mk' width height v)) :=
  Textarea.inv_processKeys ks (Textarea.inv_mk width height v)

/-- **C7 (confirmed).**  Handling the `Return` key replaces the current line by
its prefix before the cursor column, inserts the suffix from the cursor column
as a new line immediately after it, and moves the cursor to `(row + 1, 0)`.
(The row hypothesis states that the cursor addresses an existing line, which
`textarea_handleKey_preserves_invariants` guarantees for every reachable
state.) -/
theorem textarea_return_splits_line (s : TextareaState) (k : Key)
    (hname : k.name = some "return") (hrow : s.cursorRow < s.lines.length) :
    (Textarea.handleKey k s).1.lines =
        (s.lines.set s.cursorRow
          ((Textarea.currentLine s).take s.cursorCol)).insertIdx
          (s.cursorRow + 1) ((Textarea.currentLine s).drop s.cursorCol) ∧
      (Textarea.handleKey k s).1.cursorRow = s.cursorRow + 1 ∧
      (Textarea.handleKey k s).1.cursorCol = 0 := by
  unfold Textarea.handleKey Textarea.keyStep
  rw [hname]
  simp [Textarea.insertNewline, Textarea.clampScroll]

/-- Witness for `textarea_return_splits_line`: cursor at `(0, 1)` in the
one-line buffer `"ab"`. -/
theorem textarea_return_splits_line_witness :
    ((some "return" : Option String) = some "return" ∧
        (0 : Nat) < ([[ 'a', 'b' ]] : List (List Char)).length) ∧
      ((Textarea.handleKey { name := some "return" }
          { lines := [[ 'a', 'b' ]], cursorRow := 0, cursorCol := 1,
            scroll := {}, width := 10, height := 5 }).1.lines =
          (([[ 'a', 'b' ]] : List (List Char)).set 0
            ((Textarea.currentLine
              { lines := [[ 'a', 'b' ]], cursorRow := 0, cursorCol := 1,
                scroll := {}, width := 10, height := 5 }).take 1)).insertIdx
            (0 + 1)
            ((Textarea.currentLine
              { lines := [[ 'a', 'b' ]], cursorRow := 0, cursorCol := 1,
                scroll := {}, width := 10, height := 5 }).drop 1) ∧
        (Textarea.handleKey { name := some "return" }
          { lines := [[ 'a', 'b' ]], cursorRow := 0, cursorCol := 1,
            scroll := {}, width := 10, height := 5 }).1.cursorRow = 0 + 1 ∧
        (Textarea.handleKey { name := some "return" }
          { lines := [[ 'a', 'b' ]], cursorRow := 0, cursorCol := 1,
            scroll := {}, width := 10, height := 5 }).1.cursorCol = 0) :=
  ⟨⟨rfl, by decide⟩,
    textarea_return_splits_line
      { lines := [[ 'a', 'b' ]], cursorRow := 0, cursorCol := 1,
        scroll := {}, width := 10, height := 5 }
      { name := some "return" } rfl (by decide)⟩

/-! ### Input (`src/src/index.ts` lines 430–569)

The single-line text field: a value, a cursor index into it, and a horizontal
scroll clamped so the cursor stays inside the `width - 2` wide viewport. -/

structure InputState where
  value : List Char
  cursor : Nat
  scroll : ScrollState
  width : Int

def Input.clampScroll (s : InputState) : InputState :=
  { s with scroll := s.scroll.clampHorizontal (s.cursor : Int) (s.width - 2) }

/-- `Input.handleKey`: the `if`/`else if` dispatch chain.  Every recognised key
ends in `_clampScroll()` and `return true`; unrecognised keys return `false`.
A printable insertion requires a one-character `sequence`, no `Ctrl`/`Meta`,
and a name that is none of `return`/`escape`/`tab` (nor any of the names
handled earlier in the chain). -/
def Input.handleKey (k : Key) (s : InputState) : InputState × Bool :=
  if k.name = some "left" then
    (Input.clampScroll { s with cursor := Max.max 0 (s.cursor - 1) }, true)
  else if k.name = some "right" then
    (Input.clampScroll { s with cursor := Min.min s.value.length (s.cursor + 1) }, true)
  else if k.name = some "home" then
    (Input.clampScroll { s with cursor := 0 }, true)
  else if k.name = some "end" then
    (Input.clampScroll { s with cursor := s.value.length }, true)
  else if k.name = some "backspace" then
    (Input.clampScroll
      (if s.cursor > 0 then
        { s with value := s.value.take (s.cursor - 1) ++ s.value.drop s.cursor,
                 cursor := s.cursor - 1 }
      else s), true)
  else if k.name = some "delete" then
    (Input.clampScroll
      (if s.cursor < s.value.length then
        { s with value := s.value.take s.cursor ++ s.value.drop (s.cursor + 1) }
      else s), true)
  else
    match k.sequence with
    | some [c] =>
        if k.name ≠ some "return" ∧ k.name ≠ some "escape" ∧
            k.name ≠ some "tab" ∧ ¬ k.ctrl ∧ ¬ k.meta then
          (Input.clampScroll
            { s with value := s.value.take s.cursor ++ [c] ++ s.value.drop s.cursor,
                     cursor := s.cursor + 1 }, true)
        else (s, false)
    | _ => (s, false)

def Input.processKeys (ks : List Key) (s : InputState) : InputState :=
  ks.foldl (fun s k => (Input.handleKey k s).1) s

/-- Helper: a `Backspace` on an empty value leaves value and cursor
untouched. -/
theorem Input.backspace_empty_step {s : InputState} (k : Key)
    (hk : k.name = some "backspace") (hv : s.value = []) (hc : s.cursor = 0) :
    (Input.handleKey k s).1.value = [] ∧ (Input.handleKey k s).1.cursor = 0 := by
  unfold Input.handleKey
  rw [hk]
  simp [Input.clampScroll, hv, hc]

/-- **C6 (confirmed).**  (a) Handling a printable single-character key `ch`
with value `v` and cursor `c ≤ v.length` yields value
`v[0:c] + ch + v[c:]` and cursor `c + 1`.  (b) On an empty value with the
cursor at `0`, any number of `Backspace` keys leaves the value empty and the
cursor at `0`. -/
theorem input_insert_and_backspace_empty :
    (∀ (s : InputState) (k : Key) (ch : Char),
      k.sequence = some [ch] → k.ctrl = false → k.meta = false →
      k.name ∉ ([some "left", some "right", some "home", some "end",
        some "backspace", some "delete", some "return", some "escape",
        some "tab"] : List (Option String)) →
      s.cursor ≤ s.value.length →
      (Input.handleKey k s).1.value =
          s.value.take s.cursor ++ [ch] ++ s.value.drop s.cursor ∧
        (Input.handleKey k s).1.cursor = s.cursor + 1) ∧
    (∀ (s : InputState) (ks : List Key),
      (∀ k ∈ ks, k.name = some "backspace") →
      s.value = [] → s.cursor = 0 →
      (Input.processKeys ks s).value = [] ∧
        (Input.processKeys ks s).cursor = 0) := by
  constructor
  · intro s k ch hseq hctrl hmeta hmem _hcur
    simp only [List.mem_cons, List.mem_singleton] at hmem
    push_neg at hmem
    obtain ⟨hl, hr, hh, he, hb, hd, hret, hesc, htab, -⟩ := hmem
    unfold Input.handleKey
    rw [if_neg hl, if_neg hr, if_neg hh, if_neg he, if_neg hb, if_neg hd, hseq]
    simp [Input.clampScroll, hret, hesc, htab, hctrl, hmeta]
  · intro s ks hks hv hc
    induction ks generalizing s with
    | nil => exact ⟨hv, hc⟩
    | cons k rest ih =>
        have hstep := Input.backspace_empty_step k (hks k (by simp)) hv hc
        exact ih _ (fun k' hk' => hks k' (by simp [hk'])) hstep.1 hstep.2

/-- Witness for `input_insert_and_backspace_empty`: inserting `x` at cursor 1
of `"ab"`, and two Backspaces on an empty field. -/
theorem input_insert_and_backspace_empty_witness :
    ((Input.handleKey { sequence := some [ 'x' ] }
        { value := [ 'a', 'b' ], cursor := 1, scroll := {}, width := 10 }).1.value =
        ([ 'a', 'b' ] : List Char).take 1 ++ [ 'x' ] ++
          ([ 'a', 'b' ] : List Char).drop 1 ∧
      (Input.handleKey { sequence := some [ 'x' ] }
        { value := [ 'a', 'b' ], cursor := 1, scroll := {}, width := 10 }).1.cursor =
        1 + 1) ∧
    ((Input.processKeys [{ name := some "backspace" }, { name := some "backspace" }]
        { value := [], cursor := 0, scroll := {}, width := 10 }).value = [] ∧
      (Input.processKeys [{ name := some "backspace" }, { name := some "backspace" }]
        { value := [], cursor := 0, scroll := {}, width := 10 }).cursor = 0) :=
  ⟨input_insert_and_backspace_empty.1
      { value := [ 'a', 'b' ], cursor := 1, scroll := {}, width := 10 }
      { sequence := some [ 'x' ] } 'x' rfl rfl rfl (by simp) (by decide),
    input_insert_and_backspace_empty.2
      { value := [], cursor := 0, scroll := {}, width := 10 }
      [{ name := some "backspace" }, { name := some "backspace" }]
      (by simp) rfl rfl⟩

/-! ### BrailleCanvas (`src/unnamed/part_000` lines 1305–1477)

The pixel and color buffers are total functions on `Int` coordinates that are
`false` / `none` outside `[0, pixelWidth) × [0, pixelHeight)`: `setPixel`
drops out-of-bounds writes, so the invariant is maintained, and the source's
optional-chaining reads (`this.pixels[py]?.[px]`) yield the same falsy result
out of bounds. -/

/-- The `BRAILLE_BITS` dot-to-bit table (row-major, two columns). -/
def brailleBit (r c : Nat) : Nat :=
  match r, c with
  | 0, 0 => 0x01
  | 0, 1 => 0x08
  | 1, 0 => 0x02
  | 1, 1 => 0x10
  | 2, 0 => 0x04
  | 2, 1 => 0x20
  | 3, 0 => 0x40
  | 3, 1 => 0x80
  | _, _ => 0

structure BrailleCanvas where
  cols : Nat
  rows : Nat
  pixels : Int → Int → Bool
  colors : Int → Int → Option String

/-- The constructor: an all-clear buffer of `cols×2` by `rows×4` pixels. -/
def BrailleCanvas.mk' (cols rows : Nat) : BrailleCanvas :=
  { cols := cols, rows := rows
    pixels := fun _ _ => false
    colors := fun _ _ => none }

def BrailleCanvas.pixelWidth (cv : BrailleCanvas) : Int := (cv.cols : Int) * 2

def BrailleCanvas.pixelHeight (cv : BrailleCanvas) : Int := (cv.rows : Int) * 4

/-- `setPixel(px, py, color)`: a silent no-op outside bounds, otherwise set the
pixel bit and store the color. -/
def BrailleCanvas.setPixel (cv : BrailleCanvas) (px py : Int)
    (color : Option String) : BrailleCanvas :=
  if px < 0 ∨ px ≥ cv.pixelWidth ∨ py < 0 ∨ py ≥ cv.pixelHeight then cv
  else
    { cv with
      pixels := fun y x => if y = py ∧ x = px then true else cv.pixels y x
      colors := fun y x => if y = py ∧ x = px then color else cv.colors y x }

/-- The fixed scan order of `getCell`'s double loop: rows `0..3` outer,
columns `0..1` inner. -/
def cellPositions : List (Nat × Nat) :=
  [(0, 0), (0, 1), (1, 0), (1, 1), (2, 0), (2, 1), (3, 0), (3, 1)]

/-- `found`-guarded update: keep the first `some`. -/
def optOr {α : Type} (a b : Option α) : Option α :=
  match a with
  | some x => some x
  | none => b

/-- The body of `getCell`'s loop: accumulate OR-ed bits, and remember the
color of the first set sub-pixel (`?? "white"` when its stored color is
`null`). -/
def BrailleCanvas.getCellLoop (cv : BrailleCanvas) (col row : Nat) :
    List (Nat × Nat) → Nat × Option String → Nat × Option String
  | [], acc => acc
  | (r, c) :: ps, acc =>
      if cv.pixels ((row : Int) * 4 + (r : Int)) ((col : Int) * 2 + (c : Int)) then
        BrailleCanvas.getCellLoop cv col row ps
          (acc.1 ||| brailleBit r c,
            optOr acc.2 (some ((cv.colors ((row : Int) * 4 + (r : Int))
              ((col : Int) * 2 + (c : Int))).getD "white")))
      else BrailleCanvas.getCellLoop cv col row ps acc

/-- `getCell(col, row)`: the glyph code point `0x2800 + bits` and the
representative color (`"gray"` when the cell is blank). -/
def BrailleCanvas.getCell (cv : BrailleCanvas) (col row : Nat) : Nat × String :=
  (0x2800 + (BrailleCanvas.getCellLoop cv col row cellPositions (0, none)).1,
    (BrailleCanvas.getCellLoop cv col row cellPositions (0, none)).2.getD "gray")

/-! Specification-side definitions for claim C9, phrased from the spec's
words: the glyph is the OR of the 8 sub-pixel bits, and the color is the
stored color of the *first* set sub-pixel in the fixed row-major scan order. -/

/-- Whether the sub-pixel at in-cell position `p = (r, c)` of cell
`(col, row)` is set. -/
def BrailleCanvas.pixelAt (cv : BrailleCanvas) (col row : Nat)
    (p : Nat × Nat) : Bool :=
  cv.pixels ((row : Int) * 4 + (p.1 : Int)) ((col : Int) * 2 + (p.2 : Int))

/-- Spec: the OR of the bits of all set sub-pixels of the cell. -/
def BrailleCanvas.cellBitsSpec (cv : BrailleCanvas) (col row : Nat) : Nat :=
  cellPositions.foldr
    (fun p acc => if cv.pixelAt col row p then brailleBit p.1 p.2 ||| acc else acc) 0

/-- Spec: the first set sub-pixel in scan order, if any. -/
def BrailleCanvas.firstSetPos (cv : BrailleCanvas) (col row : Nat) :
    Option (Nat × Nat) :=
  cellPositions.find? (fun p => cv.pixelAt col row p)

/-- Spec: the stored color of the first set sub-pixel (defaulting `null` to
`"white"`), or `"gray"` for a blank cell. -/
def BrailleCanvas.cellColorSpec (cv : BrailleCanvas) (col row : Nat) : String :=
  match cv.firstSetPos col row with
  | some p => (cv.colors ((row : Int) * 4 + (p.1 : Int))
      ((col : Int) * 2 + (p.2 : Int))).getD "white"
  | none => "gray"

theorem optOr_none_right {α : Type} (a : Option α) : optOr a none = a := by
  cases a <;> rfl

theorem optOr_some_absorb {α : Type} (a : Option α) (v : α) (b : Option α) :
    optOr (optOr a (some v)) b = optOr a (some v) := by
  cases a <;> rfl

/-- Helper: closed form of `getCellLoop` over any position list. -/
theorem BrailleCanvas.getCellLoop_eq (cv : BrailleCanvas) (col row : Nat)
    (ps : List (Nat × Nat)) (b : Nat) (f : Option String) :
    BrailleCanvas.getCellLoop cv col row ps (b, f) =
      (b ||| ps.foldr
        (fun p acc => if cv.pixelAt col row p then brailleBit p.1 p.2 ||| acc else acc) 0,
      optOr f ((ps.find? (fun p => cv.pixelAt col row p)).map
        (fun p => (cv.colors ((row : Int) * 4 + (p.1 : Int))
          ((col : Int) * 2 + (p.2 : Int))).getD "white"))) := by
  induction ps generalizing b f with
  | nil => simp [BrailleCanvas.getCellLoop, optOr_none_right]
  | cons p ps ih =>
      obtain ⟨r, c⟩ := p
      by_cases hp : cv.pixelAt col row (r, c)
      · have hp' : cv.pixels ((row : Int) * 4 + (r : Int))
            ((col : Int) * 2 + (c : Int)) = true := hp
        simp only [BrailleCanvas.getCellLoop, hp', if_pos, ite_true, ih,
          List.foldr_cons, List.find?_cons]
        rw [show (cv.pixelAt col row (r, c)) = true from hp]
        simp only [BrailleCanvas.pixelAt] at hp'
        simp only [hp', ite_true, optOr_some_absorb]
        rw [Nat.or_assoc]
        simp
      · have hp' : cv.pixels ((row : Int) * 4 + (r : Int))
            ((col : Int) * 2 + (c : Int)) = false := by
          simpa [BrailleCanvas.pixelAt] using hp
        simp only [BrailleCanvas.getCellLoop, hp', ite_false, ih,
          List.foldr_cons, List.find?_cons]
        rw [show (cv.pixelAt col row (r, c)) = false from by
          simpa [BrailleCanvas.pixelAt] using hp]
        simp

/-- **C9 (amended).**  `getCell` returns exactly the spec-side cell value: the
glyph code point is `0x2800` plus the OR of the 8 sub-pixel bits, and the
color is the stored color of the first set sub-pixel in the fixed row-major
scan order (`"white"` for a stored `null`, `"gray"` for a blank cell).  The
emitted color is determined by scan order, not by draw order. -/
theorem getCell_eq_firstSet_scan_spec (cv : BrailleCanvas) (col row : Nat) :
    cv.getCell col row =
      (0x2800 + cv.cellBitsSpec col row, cv.cellColorSpec col row) := by
  unfold BrailleCanvas.getCell BrailleCanvas.cellBitsSpec
    BrailleCanvas.cellColorSpec BrailleCanvas.firstSetPos
  rw [BrailleCanvas.getCellLoop_eq]
  cases hf : cellPositions.find? (fun p => cv.pixelAt col row p) with
  | none => simp [optOr, hf]
  | some p => simp [optOr, hf]

/-- **C9 (counterexample).**  Draw order does *not* win: on a 1×1 canvas,
drawing sub-pixel `(1,0)` red and *later* drawing sub-pixel `(0,0)` blue
changes the cell's emitted color from red to blue, because `(0,0)` comes first
in scan order — the claim's "colors drawn later into the same cell do not
override" is false. -/
theorem getCell_later_draw_overrides_color :
    ((((BrailleCanvas.mk' 1 1).setPixel 1 0 (some "red")).getCell 0 0).2 = "red" ∧
      ((((BrailleCanvas.mk' 1 1).setPixel 1 0 (some "red")).setPixel 0 0
        (some "blue")).getCell 0 0).2 = "blue" ∧
      ("blue" : String) ≠ "red") := by
  refine ⟨by decide, by decide, by decide⟩

/-- **C8 (confirmed).**  `setPixel` at any out-of-bounds pixel coordinate is a
no-op: every cell's glyph and color returned by `getCell` is unchanged. -/
theorem setPixel_out_of_bounds_noop (cv : BrailleCanvas) (px py : Int)
    (color : Option String) (col row : Nat)
    (h : px < 0 ∨ px ≥ cv.pixelWidth ∨ py < 0 ∨ py ≥ cv.pixelHeight) :
    (cv.setPixel px py color).getCell col row = cv.getCell col row := by
  unfold BrailleCanvas.setPixel
  rw [if_pos h]

/-- Witness for `setPixel_out_of_bounds_noop`: `px = -1` on a 2×2 canvas. -/
theorem setPixel_out_of_bounds_noop_witness :
    ((-1 : Int) < 0 ∨ (-1 : Int) ≥ (BrailleCanvas.mk' 2 2).pixelWidth ∨
        (0 : Int) < 0 ∨ (0 : Int) ≥ (BrailleCanvas.mk' 2 2).pixelHeight) ∧
      ((BrailleCanvas.mk' 2 2).setPixel (-1) 0 (some "red")).getCell 0 0 =
        (BrailleCanvas.mk' 2 2).getCell 0 0 :=
  ⟨Or.inl (by decide),
    setPixel_out_of_bounds_noop (BrailleCanvas.mk' 2 2) (-1) 0 (some "red") 0 0
      (Or.inl (by decide))⟩

/-! ### BarChart rasterization (`src/unnamed/part_000` lines 1837–1863)

Values are `ℚ` (JavaScript numbers; every quantity the claim touches is
computed exactly).  `Math.round` rounds half toward `+∞`, `Math.floor` is
`Int.floor`.  `BarChart._render` draws, for each value, a `drawBar` call
`(x, bottom = ph-1, top = ph-1-barH, width = barPx)`; the calls are collected
in order. -/

def jsRound (q : ℚ) : Int := Int.floor (q + 1 / 2)

/-- One `drawBar(x, bottom, top, w, color)` call emitted by the bar loop;
`colorIdx` is the palette index `i % PALETTE.length`. -/
structure BarCall where
  x : Int
  bottom : Int
  top : Int
  w : Int
  colorIdx : Nat

/-- `Math.max(...values, 0.001)`: the maximum of the values and the epsilon
floor `0.001`. -/
def barMax (values : List ℚ) : ℚ := values.foldl Max.max (1 / 1000)

/-- The `for` loop of `BarChart._render`: `x` starts at `gapPx` and advances
by `barPx + gapPx` per bar. -/
def BarChart.loop (m : ℚ) (ph barPx gapPx : Int) :
    List ℚ → Int → Nat → List BarCall
  | [], _, _ => []
  | v :: vs, x, i =>
      { x := x, bottom := ph - 1,
        top := ph - 1 - jsRound ((v / m) * (((ph - 1 : Int) : ℚ))),
        w := barPx, colorIdx := i % 7 } ::
        BarChart.loop m ph barPx gapPx vs (x + barPx + gapPx) (i + 1)

/-- `BarChart._render` (numeric core): early-out on an empty value list,
epsilon-floored maximum, equal-width bars with floor-divided width and gap. -/
def BarChart.render (values : List ℚ) (pw ph : Int) : List BarCall :=
  if values.length = 0 then []
  else
    BarChart.loop (barMax values) ph
      (Max.max 1 (Int.floor ((pw : ℚ) / ((values.length : ℚ) * 2))))
      (Max.max 0 (Int.floor
        (((pw : ℚ) -
          (Max.max 1 (Int.floor ((pw : ℚ) / ((values.length : ℚ) * 2))) : Int) *
            (values.length : ℚ)) / ((values.length : ℚ) + 1))))
      values
      (Max.max 0 (Int.floor
        (((pw : ℚ) -
          (Max.max 1 (Int.floor ((pw : ℚ) / ((values.length : ℚ) * 2))) : Int) *
            (values.length : ℚ)) / ((values.length : ℚ) + 1))))
      0

theorem jsRound_zero : jsRound 0 = 0 := by
  unfold jsRound
  rw [Int.floor_eq_zero_iff.mpr]
  constructor <;> norm_num

/-- Helper: the epsilon floor wins when every value is zero. -/
theorem barMax_allZero {values : List ℚ} (hz : ∀ v ∈ values, v = 0) :
    barMax values = 1 / 1000 := by
  unfold barMax
  suffices h : ∀ (l : List ℚ) (a : ℚ), (∀ v ∈ l, v = 0) → 0 ≤ a →
      l.foldl Max.max a = a by
    exact h values (1 / 1000) hz (by norm_num)
  intro l
  induction l with
  | nil => intro a _ _; rfl
  | cons v vs ih =>
      intro a hm ha
      have hv : v = 0 := hm v (by simp)
      rw [List.foldl_cons, hv, max_eq_left ha]
      exact ih a (fun w hw => hm w (by simp [hw])) ha

/-- Helper: every bar drawn from a zero value spans a single pixel row
(`top = bottom`, bar height `0`). -/
theorem BarChart.loop_allZero_flat {m : ℚ} (hm : m = 1 / 1000)
    (ph barPx gapPx : Int) (vs : List ℚ) (x : Int) (i : Nat)
    (hz : ∀ v ∈ vs, v = 0) :
    ∀ call ∈ BarChart.loop m ph barPx gapPx vs x i, call.top = call.bottom := by
  induction vs generalizing x i with
  | nil => intro call hc; simp [BarChart.loop] at hc
  | cons v rest ih =>
      intro call hc
      have hv : v = 0 := hz v (by simp)
      unfold BarChart.loop at hc
      rcases List.mem_cons.mp hc with h | h
      · subst h
        simp only [hv, zero_div, zero_mul, jsRound_zero]
        omega
      · exact ih _ _ (fun w hw => hz w (by simp [hw])) call h

/-- **C10 (confirmed).**  For a `BarChart` whose values are all zero, the
rasterization's divisor is the epsilon floor `0.001` (never zero, so no
division fault), and every emitted `drawBar` call has bar height `0`
(`top = bottom`). -/
theorem barChart_allZero_renders_flat (values : List ℚ) (pw ph : Int)
    (hz : ∀ v ∈ values, v = 0) :
    barMax values = 1 / 1000 ∧ barMax values ≠ 0 ∧
      ∀ call ∈ BarChart.render values pw ph, call.top = call.bottom := by
  have hmax := barMax_allZero hz
  refine ⟨hmax, by rw [hmax]; norm_num, ?_⟩
  unfold BarChart.render
  split
  · intro call hc; simp at hc
  · exact BarChart.loop_allZero_flat hmax _ _ _ values _ 0 hz

/-- Witness for `barChart_allZero_renders_flat` at `values = [0,0,0]`,
`pw = 20`, `ph = 8`. -/
theorem barChart_allZero_renders_flat_witness :
    (∀ v ∈ ([0, 0, 0] : List ℚ), v = 0) ∧
      (barMax [0, 0, 0] = 1 / 1000 ∧ barMax [0, 0, 0] ≠ 0 ∧
        ∀ call ∈ BarChart.render [0, 0, 0] 20 8, call.top = call.bottom) :=
  ⟨by simp, barChart_allZero_renders_flat [0, 0, 0] 20 8 (by simp)⟩
